import Mathlib

/-!
Verification of the graph aggregation and layout core of `src/src/App.tsx`.

The pipeline under study is the pure computation inside `fetchGraph`
(aggregation of per-node connection fragments into one deduplicated graph,
App.tsx lines 225-249) followed by `applyForceLayout` (d3 force simulation
configuration plus projection of nodes and edges into the shape handed to the
renderer, App.tsx lines 140-195).

JavaScript `Map` objects are embedded as insertion-ordered association lists:
`Map.set` overwrites the value of an existing key in place (keeping its
position) and appends a fresh key at the end; `Map.has` and `Map.get` look up
by key equality.  Numeric values are embedded as rationals.
-/

set_option maxHeartbeats 1000000

namespace SaveLoad

/-- Payload carried by every node (`NodeData` in App.tsx). -/
structure NodeData where
  label : String
  description : Option String
  tags : Option (List String)
deriving DecidableEq, Repr

/-- A node as consumed by the d3 simulation (`ForceNodeData` in App.tsx):
the payload plus the mutable simulation coordinates, absent before the
simulation has run. -/
structure ForceNodeData where
  id : String
  data : NodeData
  x : Option ℚ := none
  y : Option ℚ := none
deriving DecidableEq, Repr

/-- An edge as fetched (`InputEdge` in App.tsx). -/
structure InputEdge where
  id : String
  source : String
  target : String
deriving DecidableEq, Repr

/-- The aggregated graph (`GraphData` in App.tsx). -/
structure GraphData where
  nodes : List ForceNodeData
  edges : List InputEdge
deriving DecidableEq, Repr

/-- One per-node connections payload (the JSON returned for
`/graphs/{id}/connections`): a focal node (`this` in the source; `this` is a
reserved word in Lean, hence `thisNode`), the neighbor nodes and the incident
edges, every part optional. -/
structure Fragment where
  thisNode : Option ForceNodeData
  neighbors : Option (List ForceNodeData)
  edges : Option (List InputEdge)
deriving DecidableEq, Repr

/-! ### JavaScript `Map` embedding -/

/-- `Map.set`: overwrite an existing key in place, else append at the end. -/
def mapSet {α : Type} (m : List (String × α)) (k : String) (v : α) :
    List (String × α) :=
  match m with
  | [] => [(k, v)]
  | (k', v') :: rest =>
    if k' = k then (k, v) :: rest else (k', v') :: mapSet rest k v

/-- `Map.has`. -/
def mapHas {α : Type} (m : List (String × α)) (k : String) : Bool :=
  m.any (fun p => p.1 == k)

/-- `Map.get`. -/
def mapGet {α : Type} (m : List (String × α)) (k : String) : Option α :=
  (m.find? (fun p => p.1 == k)).map Prod.snd

/-- `Map.values()` in iteration (= insertion) order. -/
def mapValues {α : Type} (m : List (String × α)) : List α :=
  m.map Prod.snd

/-- The keys of the map in insertion order. -/
def mapKeys {α : Type} (m : List (String × α)) : List String :=
  m.map Prod.fst

abbrev NodeMap := List (String × ForceNodeData)
abbrev EdgeMap := List (String × InputEdge)

/-! ### Aggregation (App.tsx lines 225-249, inside `fetchGraph`) -/

/-- `allNodes.set(n.id, n)` — unconditional, so a later record overwrites an
earlier one with the same id. -/
def nodeInsert (m : NodeMap) (n : ForceNodeData) : NodeMap :=
  mapSet m n.id n

/-- The dedup key computed for an edge: `` `${edge.source}-${edge.target}` ``. -/
def edgeKey (edge : InputEdge) : String :=
  edge.source ++ "-" ++ edge.target

/-- `if (!edgeMap.has(edgeKey)) edgeMap.set(edgeKey, edge)` — the first edge
seen for a key is kept, later ones with the same key are dropped. -/
def addEdge (m : EdgeMap) (edge : InputEdge) : EdgeMap :=
  if mapHas m (edgeKey edge) then m else mapSet m (edgeKey edge) edge

/-- The body of `connectionsData.forEach`: insert the focal node, then the
neighbors, then the edges, into the two accumulating maps. -/
def processFragment (acc : NodeMap × EdgeMap) (data : Fragment) :
    NodeMap × EdgeMap :=
  let m1 : NodeMap :=
    match data.thisNode with
    | some t => nodeInsert acc.1 t
    | none => acc.1
  let m2 : NodeMap := List.foldl nodeInsert m1 (data.neighbors.getD [])
  let em : EdgeMap := List.foldl addEdge acc.2 (data.edges.getD [])
  (m2, em)

/-- The two maps built by the `forEach` over all fragments. -/
def aggregateConnections (connectionsData : List Fragment) : NodeMap × EdgeMap :=
  connectionsData.foldl processFragment ([], [])

/-- `graphData = { nodes: Array.from(allNodes.values()), edges:
Array.from(edgeMap.values()) }`. -/
def buildGraphData (connectionsData : List Fragment) : GraphData :=
  { nodes := mapValues (aggregateConnections connectionsData).1
    edges := mapValues (aggregateConnections connectionsData).2 }

/-- The node records supplied by one fragment, in the order the `forEach` body
inserts them: the focal node (when present) followed by the neighbors. -/
def fragNodes (f : Fragment) : List ForceNodeData :=
  f.thisNode.toList ++ f.neighbors.getD []

/-- All node records supplied by a fragment list, in insertion order. -/
def allFragNodes (frags : List Fragment) : List ForceNodeData :=
  frags.flatMap fragNodes

/-- All edge records supplied by a fragment list, in insertion order. -/
def allEdges (frags : List Fragment) : List InputEdge :=
  frags.flatMap (fun f => f.edges.getD [])

/-! ### Simulation configuration (App.tsx lines 148-162) -/

/-- The numeric parameters `applyForceLayout` installs on the d3 simulation.
`forceX()` and `forceY()` are called without an explicit target coordinate;
d3 defaults that target to 0, recorded here as `xTarget`/`yTarget`. -/
structure SimulationConfig where
  linkDistance : ℚ
  chargeStrength : ℚ
  xStrength : ℚ
  xTarget : ℚ
  yStrength : ℚ
  yTarget : ℚ
  collideRadius : ℚ
deriving DecidableEq, Repr

/-- The configuration from the source: `.distance(100)`,
`forceManyBody().strength(-100)`, `forceX().strength(0.1)`,
`forceY().strength(0.1)`, `forceCollide().radius(50)`. -/
def layoutConfig : SimulationConfig :=
  { linkDistance := 100
    chargeStrength := -100
    xStrength := 1/10
    xTarget := 0
    yStrength := 1/10
    yTarget := 0
    collideRadius := 50 }

/-- `for (let i = 0; i < 300; ++i) simulation.tick();` — the loop bound. -/
def tickCount : ℕ := 300

/-- The tick loop: the simulation step applied `tickCount` times, whatever the
simulation state and step function are. -/
def runLayoutTicks {α : Type} (tick : α → α) (s : α) : α :=
  tick^[tickCount] s

/-! ### Projection (App.tsx lines 164-189) -/

/-- A screen-space position. -/
structure XYPosition where
  x : ℚ
  y : ℚ
deriving DecidableEq, Repr

/-- A render-ready node (the object literal built in `nodesWithPositions`). -/
structure PositionedNode where
  id : String
  position : XYPosition
  data : NodeData
  type : String
  connectable : Bool
deriving DecidableEq, Repr

/-- Presentation style attached to every projected edge. -/
structure EdgeStyle where
  stroke : String
  strokeWidth : ℚ
deriving DecidableEq, Repr

/-- The arrow marker attached to every projected edge. -/
structure MarkerEnd where
  type : String
  width : ℚ
  height : ℚ
deriving DecidableEq, Repr

/-- A render-ready edge (the object literal built in `formattedEdges`). -/
structure FormattedEdge where
  id : String
  source : String
  target : String
  type : String
  style : EdgeStyle
  markerEnd : MarkerEnd
deriving DecidableEq, Repr

/-- The `nodesWithPositions` map body: `position: { x: (node.x ?? 0) * 3,
y: (node.y ?? 0) * 3 }`, payload copied, fixed type and connectable flag. -/
def projectNode (node : ForceNodeData) : PositionedNode :=
  { id := node.id
    position := { x := node.x.getD 0 * 3, y := node.y.getD 0 * 3 }
    data := node.data
    type := "default"
    connectable := true }

/-- The `formattedEdges` map body: endpoint ids passed through `String(...)`
(the identity on strings) and fixed presentation metadata attached. -/
def formatEdge (edge : InputEdge) : FormattedEdge :=
  { id := edge.id
    source := edge.source
    target := edge.target
    type := "smoothstep"
    style := { stroke := "#b1b1b7", strokeWidth := 2 }
    markerEnd := { type := "ArrowClosed", width := 20, height := 20 } }

/-- The successful path of `applyForceLayout`, with the d3 simulation
abstracted as a position assignment `pos` written onto every node: project the
simulated nodes and all aggregated edges into the renderer's shape.  This
definition only covers runs in which the force installation succeeds; the
fallible link-initialization step that precedes the tick loop is
`applyForceLayoutChecked` below, and it fails on every graph with a dangling
edge before any of the projection here is reached. -/
def applyForceLayout (pos : ForceNodeData → Option ℚ × Option ℚ)
    (graphData : GraphData) : List PositionedNode × List FormattedEdge :=
  let simulatedNodes : List ForceNodeData :=
    graphData.nodes.map (fun n => { n with x := (pos n).1, y := (pos n).2 })
  (simulatedNodes.map projectNode, graphData.edges.map formatEdge)

/-- The id→node map d3-force builds when the link force is initialized
(`new Map(nodes.map(d => [id(d), d]))` with the accessor `d => d.id`). -/
def nodeById (nodes : List ForceNodeData) : NodeMap :=
  nodes.foldl (fun m n => mapSet m n.id n) []

/-- d3-force's `find(nodeById, nodeId)` used to resolve a link endpoint:
returns the node registered under the id, and raises
`node not found: <nodeId>` when there is none.  The d3 library is an external
dependency, not repository code; this embeds its documented link-resolution
behavior, which `applyForceLayout` triggers at App.tsx lines 150-156. -/
def linkFind (m : NodeMap) (nodeId : String) : Except String ForceNodeData :=
  match mapGet m nodeId with
  | some n => Except.ok n
  | none => Except.error ("node not found: " ++ nodeId)

/-- d3-force link initialization: every link's `source` and `target` id is
resolved against the id→node map, in order; the first unresolvable id aborts
with `node not found`. -/
def initializeLinks (m : NodeMap) :
    List InputEdge → Except String (List (ForceNodeData × ForceNodeData))
  | [] => Except.ok []
  | e :: rest =>
    match linkFind m e.source with
    | Except.error msg => Except.error msg
    | Except.ok s =>
      match linkFind m e.target with
      | Except.error msg => Except.error msg
      | Except.ok t =>
        match initializeLinks m rest with
        | Except.error msg => Except.error msg
        | Except.ok links => Except.ok ((s, t) :: links)

/-- `applyForceLayout` including the d3 error path: installing the link force
initializes it against the simulation's node list immediately (the nodes were
attached by `forceSimulation(graphData.nodes)` first), so an edge endpoint id
absent from the node list raises `node not found` there — before the tick loop
runs and before any projected node or edge is built.  The exception propagates
out of `applyForceLayout` into `fetchGraph`'s catch block, and `setNodes` /
`setEdges` are never called. -/
def applyForceLayoutChecked (pos : ForceNodeData → Option ℚ × Option ℚ)
    (graphData : GraphData) :
    Except String (List PositionedNode × List FormattedEdge) :=
  match initializeLinks (nodeById graphData.nodes) graphData.edges with
  | Except.error msg => Except.error msg
  | Except.ok _ => Except.ok (applyForceLayout pos graphData)

/-! ### The end-to-end example input (spec §8) -/

/-- The node `{id:"a"}` of the end-to-end example. -/
def exampleNodeA : ForceNodeData :=
  { id := "a", data := { label := "a", description := none, tags := none } }

/-- The node `{id:"b"}` of the end-to-end example. -/
def exampleNodeB : ForceNodeData :=
  { id := "b", data := { label := "b", description := none, tags := none } }

/-- The two fragments of the end-to-end example:
`{this:{id:"a"}, neighbors:[{id:"b"}], edges:[{id:"e1",source:"a",target:"b"}]}`
followed by
`{this:{id:"b"}, neighbors:[{id:"a"}], edges:[{id:"e2",source:"a",target:"b"}]}`. -/
def exampleFragments : List Fragment :=
  [⟨some exampleNodeA, some [exampleNodeB], some [⟨"e1", "a", "b"⟩]⟩,
   ⟨some exampleNodeB, some [exampleNodeA], some [⟨"e2", "a", "b"⟩]⟩]

/-! ### Lemmas about the `Map` embedding -/

theorem mapGet_nil {α : Type} (k : String) :
    mapGet ([] : List (String × α)) k = none := rfl

theorem mapGet_cons {α : Type} (k₀ : String) (v₀ : α) (m : List (String × α))
    (k : String) :
    mapGet ((k₀, v₀) :: m) k = if k₀ = k then some v₀ else mapGet m k := by
  by_cases h : k₀ = k <;> simp [mapGet, List.find?_cons, h]

theorem mapHas_eq_isSome_mapGet {α : Type} (m : List (String × α)) (k : String) :
    mapHas m k = (mapGet m k).isSome := by
  induction m with
  | nil => rfl
  | cons p rest ih =>
    obtain ⟨k₀, v₀⟩ := p
    simp only [mapHas] at ih
    by_cases h : k₀ = k
    · simp [mapHas, List.any_cons, mapGet_cons, h]
    · have hb : (k₀ == k) = false := by simp [h]
      simp [mapHas, List.any_cons, mapGet_cons, h, hb, ih]

theorem mapGet_mapSet_self {α : Type} (m : List (String × α)) (k : String)
    (v : α) : mapGet (mapSet m k v) k = some v := by
  induction m with
  | nil => simp [mapSet, mapGet_cons]
  | cons p rest ih =>
    obtain ⟨k₀, v₀⟩ := p
    by_cases h : k₀ = k
    · simp [mapSet, h, mapGet_cons]
    · simp [mapSet, h, mapGet_cons, ih]

theorem mapGet_mapSet_ne {α : Type} (m : List (String × α)) {k k' : String}
    (v : α) (h : k' ≠ k) : mapGet (mapSet m k v) k' = mapGet m k' := by
  have h' : k ≠ k' := Ne.symm h
  induction m with
  | nil => simp [mapSet, mapGet_cons, mapGet_nil, h']
  | cons p rest ih =>
    obtain ⟨k₀, v₀⟩ := p
    by_cases hk : k₀ = k
    · subst hk
      simp [mapSet, mapGet_cons, h']
    · simp [mapSet, hk, mapGet_cons, ih]

theorem mapKeys_cons {α : Type} (k₀ : String) (v₀ : α) (m : List (String × α)) :
    mapKeys ((k₀, v₀) :: m) = k₀ :: mapKeys m := rfl

theorem mapKeys_mapSet {α : Type} (m : List (String × α)) (k : String) (v : α) :
    mapKeys (mapSet m k v) =
      if k ∈ mapKeys m then mapKeys m else mapKeys m ++ [k] := by
  induction m with
  | nil => simp [mapSet, mapKeys]
  | cons p rest ih =>
    obtain ⟨k₀, v₀⟩ := p
    by_cases hk : k₀ = k
    · subst hk
      simp [mapSet, mapKeys_cons]
    · have hne : ¬k = k₀ := fun hh => hk hh.symm
      simp only [mapSet, if_neg hk, mapKeys_cons, ih, List.mem_cons]
      by_cases hm : k ∈ mapKeys rest
      · rw [if_pos hm, if_pos (Or.inr hm)]
      · have hboth : ¬(k = k₀ ∨ k ∈ mapKeys rest) := by
          rintro (h1 | h2)
          · exact hne h1
          · exact hm h2
        rw [if_neg hm, if_neg hboth]
        simp

theorem mapKeys_nodup_mapSet {α : Type} (m : List (String × α)) (k : String)
    (v : α) (h : (mapKeys m).Nodup) : (mapKeys (mapSet m k v)).Nodup := by
  rw [mapKeys_mapSet]
  by_cases hm : k ∈ mapKeys m
  · simpa [hm] using h
  · simp only [hm, if_false]
    rw [List.nodup_append]
    exact ⟨h, List.nodup_singleton k, by simpa [List.disjoint_singleton] using hm⟩

theorem mapGet_eq_none_of_not_mem {α : Type} {m : List (String × α)}
    {k : String} (h : k ∉ mapKeys m) : mapGet m k = none := by
  induction m with
  | nil => rfl
  | cons p rest ih =>
    obtain ⟨k₀, v₀⟩ := p
    simp only [mapKeys, List.map_cons, List.mem_cons] at h
    push_neg at h
    rw [mapGet_cons, if_neg (fun hh => h.1 (Eq.symm hh))]
    exact ih (by simpa [mapKeys] using h.2)

theorem map_ext {α : Type} : ∀ {m₁ m₂ : List (String × α)},
    (mapKeys m₁).Nodup → mapKeys m₁ = mapKeys m₂ →
    (∀ k, mapGet m₁ k = mapGet m₂ k) → m₁ = m₂ := by
  intro m₁
  induction m₁ with
  | nil =>
    intro m₂ _ hk _
    cases m₂ with
    | nil => rfl
    | cons q rest₂ => simp [mapKeys] at hk
  | cons p rest ih =>
    intro m₂ hnd hk hg
    obtain ⟨k₀, v₀⟩ := p
    cases m₂ with
    | nil => simp [mapKeys] at hk
    | cons q rest₂ =>
      obtain ⟨k₁, v₁⟩ := q
      have hkk : k₀ = k₁ ∧ mapKeys rest = mapKeys rest₂ := by
        simpa [mapKeys] using hk
      obtain ⟨hk01, hkeys⟩ := hkk
      subst hk01
      have hv : v₀ = v₁ := by
        have h0 := hg k₀
        simpa [mapGet_cons] using h0
      subst hv
      have hnd' : k₀ ∉ mapKeys rest ∧ (mapKeys rest).Nodup := by
        simpa [mapKeys, List.nodup_cons] using hnd
      have htail : rest = rest₂ := by
        refine ih hnd'.2 hkeys (fun k => ?_)
        by_cases hke : k = k₀
        · subst hke
          rw [mapGet_eq_none_of_not_mem hnd'.1,
            mapGet_eq_none_of_not_mem (hkeys ▸ hnd'.1)]
        · have hke' : ¬k₀ = k := fun hh => hke hh.symm
          have h0 := hg k
          simpa [mapGet_cons, hke'] using h0
      rw [htail]

/-! ### Characterizing the node fold -/

theorem mapGet_foldl_nodeInsert (ns : List ForceNodeData) :
    ∀ (m : NodeMap) (k : String),
    mapGet (List.foldl nodeInsert m ns) k =
      (ns.reverse.find? (fun n => n.id == k)).or (mapGet m k) := by
  induction ns with
  | nil => intro m k; simp
  | cons n rest ih =>
    intro m k
    simp only [List.foldl_cons, List.reverse_cons, List.find?_append]
    rw [ih]
    cases hfind : rest.reverse.find? (fun x => x.id == k) with
    | some x => simp [Option.or_some]
    | none =>
      simp only [Option.none_or]
      by_cases h : n.id = k
      · subst h
        simp [nodeInsert, mapGet_mapSet_self, List.find?_cons]
      · have hb : (n.id == k) = false := by simp [h]
        simp [nodeInsert, mapGet_mapSet_ne _ _ (Ne.symm h), List.find?_cons, hb]

theorem mapKeys_foldl_nodeInsert_of_mem (ns : List ForceNodeData) :
    ∀ (m : NodeMap), (∀ n ∈ ns, n.id ∈ mapKeys m) →
    mapKeys (List.foldl nodeInsert m ns) = mapKeys m := by
  induction ns with
  | nil => intro m _; rfl
  | cons n rest ih =>
    intro m hmem
    simp only [List.foldl_cons]
    have hstep : mapKeys (nodeInsert m n) = mapKeys m := by
      rw [nodeInsert, mapKeys_mapSet, if_pos (hmem n (List.mem_cons_self n rest))]
    rw [ih (nodeInsert m n) (fun x hx => hstep ▸ hmem x (List.mem_cons_of_mem n hx)),
      hstep]

theorem mem_mapKeys_foldl_nodeInsert {ns : List ForceNodeData} {n : ForceNodeData}
    (m : NodeMap) (hn : n ∈ ns) :
    n.id ∈ mapKeys (List.foldl nodeInsert m ns) := by
  have hfind : (ns.reverse.find? (fun x => x.id == n.id)).isSome = true := by
    rw [List.find?_isSome]
    exact ⟨n, List.mem_reverse.2 hn, by simp⟩
  have hget : (mapGet (List.foldl nodeInsert m ns) n.id).isSome = true := by
    rw [mapGet_foldl_nodeInsert]
    cases hf : ns.reverse.find? (fun x => x.id == n.id) with
    | some x => simp [Option.or_some]
    | none => rw [hf] at hfind; simp at hfind
  by_contra hmem
  rw [mapGet_eq_none_of_not_mem hmem] at hget
  simp at hget

theorem mapKeys_nodup_foldl_nodeInsert (ns : List ForceNodeData) :
    ∀ (m : NodeMap), (mapKeys m).Nodup →
    (mapKeys (List.foldl nodeInsert m ns)).Nodup := by
  induction ns with
  | nil => intro m hm; exact hm
  | cons n rest ih =>
    intro m hm
    exact ih (nodeInsert m n) (mapKeys_nodup_mapSet m n.id n hm)

/-- Replaying the same node insertions a second time leaves the map unchanged. -/
theorem foldl_nodeInsert_replay (ns : List ForceNodeData) :
    List.foldl nodeInsert (List.foldl nodeInsert [] ns) ns =
      List.foldl nodeInsert [] ns := by
  have hnodup : (mapKeys (List.foldl nodeInsert ([] : NodeMap) ns)).Nodup :=
    mapKeys_nodup_foldl_nodeInsert ns [] List.nodup_nil
  refine map_ext (mapKeys_nodup_foldl_nodeInsert ns _ hnodup) ?_ ?_
  · exact mapKeys_foldl_nodeInsert_of_mem ns _
      (fun n hn => mem_mapKeys_foldl_nodeInsert [] hn)
  · intro k
    rw [mapGet_foldl_nodeInsert, mapGet_foldl_nodeInsert]
    cases hf : ns.reverse.find? (fun x => x.id == k) with
    | some x => simp [Option.or_some]
    | none => simp [Option.none_or]

/-! ### Characterizing the edge fold -/

theorem mapGet_addEdge_self (m : EdgeMap) (e : InputEdge) :
    (mapGet (addEdge m e) (edgeKey e)).isSome = true := by
  rw [addEdge]
  by_cases h : mapHas m (edgeKey e) = true
  · rw [if_pos h]
    rw [mapHas_eq_isSome_mapGet] at h
    exact h
  · rw [if_neg h, mapGet_mapSet_self]
    rfl

theorem mapGet_addEdge_isSome_of_isSome (m : EdgeMap) (e : InputEdge)
    (k : String) (h : (mapGet m k).isSome = true) :
    (mapGet (addEdge m e) k).isSome = true := by
  rw [addEdge]
  by_cases hh : mapHas m (edgeKey e) = true
  · rw [if_pos hh]; exact h
  · rw [if_neg hh]
    by_cases hk : k = edgeKey e
    · subst hk; rw [mapGet_mapSet_self]; rfl
    · rw [mapGet_mapSet_ne _ _ hk]; exact h

theorem mapGet_foldl_addEdge_isSome_of_isSome (es : List InputEdge) :
    ∀ (m : EdgeMap) (k : String), (mapGet m k).isSome = true →
    (mapGet (List.foldl addEdge m es) k).isSome = true := by
  induction es with
  | nil => intro m k h; exact h
  | cons e rest ih =>
    intro m k h
    exact ih _ _ (mapGet_addEdge_isSome_of_isSome m e k h)

theorem mapGet_foldl_addEdge_isSome (es : List InputEdge) :
    ∀ (m : EdgeMap) {e : InputEdge}, e ∈ es →
    (mapGet (List.foldl addEdge m es) (edgeKey e)).isSome = true := by
  induction es with
  | nil => intro m _e he; cases he
  | cons e₀ rest ih =>
    intro m e he
    simp only [List.foldl_cons]
    rcases List.mem_cons.1 he with he | he
    · subst he
      exact mapGet_foldl_addEdge_isSome_of_isSome rest _ _ (mapGet_addEdge_self m e)
    · exact ih (addEdge m e₀) he

theorem foldl_addEdge_of_all_has (es : List InputEdge) :
    ∀ (m : EdgeMap), (∀ e ∈ es, (mapGet m (edgeKey e)).isSome = true) →
    List.foldl addEdge m es = m := by
  induction es with
  | nil => intro m _; rfl
  | cons e rest ih =>
    intro m hall
    have hstep : addEdge m e = m := by
      rw [addEdge, if_pos]
      rw [mapHas_eq_isSome_mapGet]
      exact hall e (List.mem_cons_self e rest)
    simp only [List.foldl_cons, hstep]
    exact ih m (fun x hx => hall x (List.mem_cons_of_mem e hx))

/-- Replaying the same edge insertions a second time leaves the map unchanged. -/
theorem foldl_addEdge_replay (es : List InputEdge) :
    List.foldl addEdge (List.foldl addEdge [] es) es =
      List.foldl addEdge [] es :=
  foldl_addEdge_of_all_has es _
    (fun _e he => mapGet_foldl_addEdge_isSome es [] he)

/-- First-seen-wins characterization of the edge fold: the entry stored for a
key is the first inserted edge whose dedup key matches, with entries already
present in the accumulator taking precedence. -/
theorem mapGet_foldl_addEdge (es : List InputEdge) :
    ∀ (m : EdgeMap) (k : String),
    mapGet (List.foldl addEdge m es) k =
      (mapGet m k).or (es.find? (fun e => edgeKey e == k)) := by
  induction es with
  | nil => intro m k; simp
  | cons e rest ih =>
    intro m k
    simp only [List.foldl_cons]
    rw [ih]
    by_cases hhas : mapHas m (edgeKey e) = true
    · have heq : addEdge m e = m := by rw [addEdge, if_pos hhas]
      rw [heq]
      cases hget : mapGet m k with
      | some v => simp [Option.or_some]
      | none =>
        have hke : ¬edgeKey e = k := by
          intro hk
          rw [mapHas_eq_isSome_mapGet, hk, hget] at hhas
          simp at hhas
        have hb : (edgeKey e == k) = false := by simp [hke]
        simp [Option.none_or, List.find?_cons, hb]
    · have heq : addEdge m e = mapSet m (edgeKey e) e := by
        rw [addEdge, if_neg hhas]
      rw [heq]
      by_cases hk : k = edgeKey e
      · subst hk
        have hget : mapGet m (edgeKey e) = none := by
          cases hget : mapGet m (edgeKey e) with
          | none => rfl
          | some v =>
            rw [mapHas_eq_isSome_mapGet, hget] at hhas
            simp at hhas
        rw [mapGet_mapSet_self, hget]
        simp [Option.none_or, List.find?_cons]
      · rw [mapGet_mapSet_ne _ _ hk]
        have hke : ¬edgeKey e = k := fun hh => hk hh.symm
        have hb : (edgeKey e == k) = false := by simp [hke]
        cases hget : mapGet m k with
        | some v => simp [Option.or_some]
        | none => simp [Option.none_or, List.find?_cons, hb]

/-! ### Decomposing the aggregation into the two folds -/

theorem processFragment_fst (acc : NodeMap × EdgeMap) (f : Fragment) :
    (processFragment acc f).1 = List.foldl nodeInsert acc.1 (fragNodes f) := by
  obtain ⟨t, ns, es⟩ := f
  cases t <;> simp [processFragment, fragNodes, Option.toList]

theorem processFragment_snd (acc : NodeMap × EdgeMap) (f : Fragment) :
    (processFragment acc f).2 = List.foldl addEdge acc.2 (f.edges.getD []) := rfl

theorem aggregate_fst (frags : List Fragment) :
    ∀ acc : NodeMap × EdgeMap,
    (frags.foldl processFragment acc).1 =
      List.foldl nodeInsert acc.1 (allFragNodes frags) := by
  induction frags with
  | nil => intro acc; rfl
  | cons f rest ih =>
    intro acc
    simp only [List.foldl_cons, allFragNodes, List.flatMap_cons, List.foldl_append]
    rw [ih]
    simp only [allFragNodes, processFragment_fst]

theorem aggregate_snd (frags : List Fragment) :
    ∀ acc : NodeMap × EdgeMap,
    (frags.foldl processFragment acc).2 =
      List.foldl addEdge acc.2 (allEdges frags) := by
  induction frags with
  | nil => intro acc; rfl
  | cons f rest ih =>
    intro acc
    simp only [List.foldl_cons, allEdges, List.flatMap_cons, List.foldl_append]
    rw [ih]
    simp only [allEdges, processFragment_snd]

theorem aggregateConnections_fst (frags : List Fragment) :
    (aggregateConnections frags).1 =
      List.foldl nodeInsert [] (allFragNodes frags) :=
  aggregate_fst frags ([], [])

theorem aggregateConnections_snd (frags : List Fragment) :
    (aggregateConnections frags).2 =
      List.foldl addEdge [] (allEdges frags) :=
  aggregate_snd frags ([], [])

/-! ### The claims -/

/-- C1 (counterexample): two fragments define node `"n1"`, the first with label
`"L1"`, the second with label `"L2"`; the aggregated graph's record for `"n1"`
is the one from the fragment supplied last (`"L2"`), not the one supplied
first, because `allNodes.set` overwrites unconditionally. -/
theorem node_merge_first_seen_counterexample :
    (buildGraphData
        [⟨some ⟨"n1", ⟨"L1", none, none⟩, none, none⟩, some [], some []⟩,
         ⟨some ⟨"n1", ⟨"L2", none, none⟩, none, none⟩, some [], some []⟩]).nodes =
      [⟨"n1", ⟨"L2", none, none⟩, none, none⟩] ∧ ("L2" : String) ≠ "L1" :=
  ⟨by decide, by decide⟩

/-- C1 (amended): for every fragment sequence, the aggregated node mapping's
record for an id is the LAST record carried for that id across all fragments
(focal node first, then neighbors, in arrival order); earlier occurrences are
overwritten wholesale, with no field-level merging. -/
theorem node_merge_last_occurrence_wins (frags : List Fragment) (k : String) :
    mapGet (aggregateConnections frags).1 k =
      (allFragNodes frags).reverse.find? (fun n => n.id == k) := by
  rw [aggregateConnections_fst, mapGet_foldl_nodeInsert]
  simp [mapGet_nil, Option.or_none]

/-- C2 (code bug): on the graph with the single node `"a"` and the single edge
`a → "zzz"` — `"zzz"` absent from the node mapping — the layout pass aborts
with d3's `node not found: zzz` while the link force is installed, before the
tick loop and before projection, so nothing is handed to the renderer; the
same graph without the dangling edge completes and produces output.  The claim
(and spec §7's DanglingReference taxonomy) requires the dangling edge to be
tolerated, never fatal, and merely excluded from the projected list. -/
theorem dangling_edge_crashes_layout :
    applyForceLayoutChecked (fun _ => (some 0, some 0))
        ⟨[⟨"a", ⟨"a", none, none⟩, none, none⟩], [⟨"e1", "a", "zzz"⟩]⟩ =
      Except.error "node not found: zzz" ∧
    applyForceLayoutChecked (fun _ => (some 0, some 0))
        ⟨[⟨"a", ⟨"a", none, none⟩, none, none⟩], []⟩ =
      Except.ok ([⟨"a", ⟨0, 0⟩, ⟨"a", none, none⟩, "default", true⟩], []) :=
  ⟨rfl, by
    simp [applyForceLayoutChecked, initializeLinks, linkFind, nodeById, mapSet,
      mapGet, applyForceLayout, projectNode]⟩

/-- C3 (counterexample): the edges `("a","b-c")` and `("a-b","c")` have
distinct ordered endpoint pairs, so keying by the pair would retain both; the
code keys by the dash-concatenated string, the keys collide, and only the
first edge survives aggregation. -/
theorem edge_pair_key_counterexample :
    ((("a" : String), ("b-c" : String)) ≠ (("a-b" : String), ("c" : String))) ∧
    (buildGraphData
        [⟨none, none, some [⟨"e1", "a", "b-c"⟩, ⟨"e2", "a-b", "c"⟩]⟩]).edges =
      [⟨"e1", "a", "b-c"⟩] :=
  ⟨by decide, by decide⟩

/-- C3 (amended): edge dedup keys each edge by the string
`source ++ "-" ++ target`: the aggregated edge map holds, for each key, the
first edge observed with that key (its own id is irrelevant), and two edges
with identical ordered endpoints always share a key and hence collapse. -/
theorem edge_dedup_by_concatenated_key :
    (∀ (frags : List Fragment) (k : String),
      mapGet (aggregateConnections frags).2 k =
        (allEdges frags).find? (fun e => edgeKey e == k)) ∧
    (∀ id₁ id₂ s t : String, edgeKey ⟨id₁, s, t⟩ = edgeKey ⟨id₂, s, t⟩) := by
  constructor
  · intro frags k
    rw [aggregateConnections_snd, mapGet_foldl_addEdge]
    simp [mapGet_nil, Option.none_or]
  · intro id₁ id₂ s t
    rfl

/-- C4 (confirmed): one layout pass advances the simulation exactly 300 ticks —
a fixed budget applied whatever the simulation state — with link target
distance 100, many-body charge strength -100, centering strength 0.1 toward 0
on each of x and y, and collision radius 50. -/
theorem simulation_parameters :
    tickCount = 300 ∧
    (∀ (α : Type) (tick : α → α) (s : α), runLayoutTicks tick s = tick^[300] s) ∧
    layoutConfig.linkDistance = 100 ∧
    layoutConfig.chargeStrength = -100 ∧
    layoutConfig.xStrength = 1/10 ∧ layoutConfig.xTarget = 0 ∧
    layoutConfig.yStrength = 1/10 ∧ layoutConfig.yTarget = 0 ∧
    layoutConfig.collideRadius = 50 :=
  ⟨rfl, fun _ _ _ => rfl, rfl, rfl, rfl, rfl, rfl, rfl, rfl⟩

/-- C5 (confirmed): each projected screen coordinate is the simulated
coordinate multiplied by exactly 3 on both axes, and an absent simulated
coordinate is treated as 0 before scaling. -/
theorem projection_scales_by_three (node : ForceNodeData) :
    (projectNode node).position.x = node.x.getD 0 * 3 ∧
    (projectNode node).position.y = node.y.getD 0 * 3 ∧
    (projectNode { node with x := none, y := none }).position = ⟨0, 0⟩ := by
  refine ⟨rfl, rfl, ?_⟩
  simp [projectNode]

/-- C6 (confirmed): aggregating the same fragment twice yields a graph
identical to aggregating it once: the node mapping and the deduplicated edge
collection are unchanged by the repeated fragment. -/
theorem aggregation_idempotent (f : Fragment) :
    buildGraphData [f, f] = buildGraphData [f] := by
  have h1 : (aggregateConnections [f, f]).1 = (aggregateConnections [f]).1 := by
    rw [aggregateConnections_fst, aggregateConnections_fst]
    simp only [allFragNodes, List.flatMap_cons, List.flatMap_nil,
      List.append_nil, List.foldl_append]
    exact foldl_nodeInsert_replay (fragNodes f)
  have h2 : (aggregateConnections [f, f]).2 = (aggregateConnections [f]).2 := by
    rw [aggregateConnections_snd, aggregateConnections_snd]
    simp only [allEdges, List.flatMap_cons, List.flatMap_nil,
      List.append_nil, List.foldl_append]
    exact foldl_addEdge_replay (f.edges.getD [])
  simp only [buildGraphData, h1, h2]

/-- C7 (confirmed): the end-to-end example aggregates to exactly 2 nodes and
exactly 1 edge — the first-seen edge `e1` — and, for every simulated position
assignment, the pipeline hands the renderer exactly 2 positioned nodes and 1
projected edge (whose coordinates are rationals in this model, hence finite
numbers). -/
theorem end_to_end_example :
    (buildGraphData exampleFragments).nodes.length = 2 ∧
    (buildGraphData exampleFragments).edges = [⟨"e1", "a", "b"⟩] ∧
    ∀ pos : ForceNodeData → Option ℚ × Option ℚ,
      (applyForceLayout pos (buildGraphData exampleFragments)).1.length = 2 ∧
      (applyForceLayout pos (buildGraphData exampleFragments)).2.length = 1 := by
  refine ⟨by decide, by decide, fun pos => ?_⟩
  constructor
  · simp [applyForceLayout]
    decide
  · simp [applyForceLayout]
    decide

/-- C8 (confirmed): aggregation is total over the declared optional structure
and a missing part contributes nothing: a missing neighbors or edges array
behaves exactly like an empty one, a missing focal node leaves only the
neighbor insertions, and a fully empty fragment anywhere in the sequence
leaves the aggregated graph unchanged. -/
theorem aggregation_total_over_missing_fields :
    (∀ (acc : NodeMap × EdgeMap) (t : Option ForceNodeData)
        (es : Option (List InputEdge)),
      processFragment acc ⟨t, none, es⟩ = processFragment acc ⟨t, some [], es⟩) ∧
    (∀ (acc : NodeMap × EdgeMap) (t : Option ForceNodeData)
        (ns : Option (List ForceNodeData)),
      processFragment acc ⟨t, ns, none⟩ = processFragment acc ⟨t, ns, some []⟩) ∧
    (∀ (acc : NodeMap × EdgeMap) (ns : Option (List ForceNodeData))
        (es : Option (List InputEdge)),
      (processFragment acc ⟨none, ns, es⟩).1 =
        List.foldl nodeInsert acc.1 (ns.getD [])) ∧
    (∀ acc : NodeMap × EdgeMap, processFragment acc ⟨none, none, none⟩ = acc) ∧
    (∀ fs₁ fs₂ : List Fragment,
      buildGraphData (fs₁ ++ ⟨none, none, none⟩ :: fs₂) =
        buildGraphData (fs₁ ++ fs₂)) := by
  refine ⟨fun acc t es => rfl, fun acc t ns => rfl, fun acc ns es => rfl,
    fun acc => rfl, fun fs₁ fs₂ => ?_⟩
  have key : ∀ acc : NodeMap × EdgeMap,
      processFragment acc ⟨none, none, none⟩ = acc := fun acc => rfl
  simp only [buildGraphData, aggregateConnections, List.foldl_append,
    List.foldl_cons, key]

/-- C9 (confirmed): the dedup key is the string `source + "-" + target`, so the
edges `("a","b-c")` and `("a-b","c")`, whose ordered endpoint pairs differ,
share the key `"a-b-c"`; aggregation keeps only the first of them. -/
theorem edge_key_dash_collision :
    edgeKey ⟨"e1", "a", "b-c"⟩ = edgeKey ⟨"e2", "a-b", "c"⟩ ∧
    ((("a" : String), ("b-c" : String)) ≠ (("a-b" : String), ("c" : String))) ∧
    (buildGraphData
        [⟨none, none, some [⟨"e1", "a", "b-c"⟩, ⟨"e2", "a-b", "c"⟩]⟩]).edges =
      [⟨"e1", "a", "b-c"⟩] :=
  ⟨by decide, by decide, by decide⟩

/-- C10 (confirmed): projection preserves node identity and payload: the
projected list has exactly one entry per aggregated node in the same order,
each entry's id and data equal the aggregated node's, and only the position
plus the fixed `type`/`connectable` attributes are added. -/
theorem projection_preserves_node_identity
    (pos : ForceNodeData → Option ℚ × Option ℚ) (g : GraphData) :
    (applyForceLayout pos g).1.length = g.nodes.length ∧
    (applyForceLayout pos g).1.map (fun p => (p.id, p.data)) =
      g.nodes.map (fun n => (n.id, n.data)) ∧
    (applyForceLayout pos g).1.map (fun p => (p.type, p.connectable)) =
      g.nodes.map (fun _ => ("default", true)) := by
  refine ⟨?_, ?_, ?_⟩
  · simp [applyForceLayout, projectNode, List.map_map, Function.comp]
  · simp [applyForceLayout, projectNode, List.map_map, Function.comp]
  · simp only [applyForceLayout, List.map_map]
    induction g.nodes with
    | nil => rfl
    | cons n rest ih => simpa [projectNode] using ih

end SaveLoad
